import Mathlib

/-!
Verification of the InterWild auxiliary components: the axis-angle and
rotation-matrix conversions and the losses of `common/nets/loss.py`, and the
MANO two-hand topology table of `common/utils/mano.py`.  The numeric code is
embedded over the real numbers, keeping the source's epsilon guards, clamp and
small-angle selection literally.
-/

open Real

noncomputable section

/-- Euclidean norm of a 3-vector (`torch.norm(axis_angle, dim=1)`). -/
def vnorm (v : Fin 3 → ℝ) : ℝ := Real.sqrt (v 0 ^ 2 + v 1 ^ 2 + v 2 ^ 2)

/-- `torch.clamp(x, lo, hi)`. -/
def clamp (lo hi x : ℝ) : ℝ := min hi (max lo x)

/-- The skew-symmetric cross-product matrix K built in `axis_angle_to_matrix`:
`K = [[0, -az, ay], [az, 0, -ax], [-ay, ax, 0]]`. -/
def skewK (a : Fin 3 → ℝ) : Matrix (Fin 3) (Fin 3) ℝ :=
  !![0, -(a 2), a 1; a 2, 0, -(a 0); -(a 1), a 0, 0]

/-- Rodrigues' formula `R = I + sin(θ)·K + (1-cos(θ))·K²` with a given axis and
given sine/cosine values. -/
def rodriguesCore (a : Fin 3 → ℝ) (s c : ℝ) : Matrix (Fin 3) (Fin 3) ℝ :=
  1 + s • skewK a + (1 - c) • (skewK a * skewK a)

/-- The rotation computed by `axis_angle_to_matrix` before the small-angle
selection: `angle = ‖v‖`, `axis = v / (angle + 1e-8)`, then Rodrigues. -/
def rodriguesR (v : Fin 3 → ℝ) : Matrix (Fin 3) (Fin 3) ℝ :=
  rodriguesCore (fun i => v i / (vnorm v + 1e-8)) (Real.sin (vnorm v)) (Real.cos (vnorm v))

/-- `axis_angle_to_matrix` on one batch entry: the `torch.where` small-angle
mask replaces the Rodrigues matrix by the identity when `angle < 1e-3`. -/
def axis_angle_to_matrix (v : Fin 3 → ℝ) : Matrix (Fin 3) (Fin 3) ℝ :=
  if vnorm v < 1e-3 then 1 else rodriguesR v

/-- `axis_angle_to_matrix` on a whole batch: the source flattens the leading
dimensions and treats every entry independently. -/
def axis_angle_to_matrix_batch {B : Type} (vs : B → Fin 3 → ℝ) :
    B → Matrix (Fin 3) (Fin 3) ℝ :=
  fun b => axis_angle_to_matrix (vs b)

/-- `trace = matrix[:,0,0] + matrix[:,1,1] + matrix[:,2,2]`. -/
def m2aa_trace (M : Matrix (Fin 3) (Fin 3) ℝ) : ℝ := M 0 0 + M 1 1 + M 2 2

/-- The clamped acos argument `torch.clamp((trace - 1) / 2, -1, 1)`. -/
def m2aa_clamped (M : Matrix (Fin 3) (Fin 3) ℝ) : ℝ :=
  clamp (-1) 1 ((m2aa_trace M - 1) / 2)

/-- The recovered angle `acos(clamp((trace - 1) / 2, -1, 1))`. -/
def m2aa_angle (M : Matrix (Fin 3) (Fin 3) ℝ) : ℝ := Real.arccos (m2aa_clamped M)

/-- The unnormalized axis `(R[2,1]-R[1,2], R[0,2]-R[2,0], R[1,0]-R[0,1])`. -/
def m2aa_axis_unnorm (M : Matrix (Fin 3) (Fin 3) ℝ) : Fin 3 → ℝ :=
  ![M 2 1 - M 1 2, M 0 2 - M 2 0, M 1 0 - M 0 1]

/-- `matrix_to_axis_angle` on one batch entry: angle from the clamped trace,
axis normalized by its norm plus `1e-8`, and the `torch.where` small-angle mask
replacing the result by the zero vector when `angle < 1e-3`. -/
def matrix_to_axis_angle (M : Matrix (Fin 3) (Fin 3) ℝ) : Fin 3 → ℝ :=
  if m2aa_angle M < 1e-3 then (fun _ => 0)
  else fun i => m2aa_angle M * (m2aa_axis_unnorm M i / (vnorm (m2aa_axis_unnorm M) + 1e-8))

/-- `CoordLoss.forward`: `loss = |coord_out - coord_gt| * valid`, with the
third (z) channel additionally multiplied by `is_3D` broadcast per batch item,
and the result reassembled by `torch.cat`. -/
def coord_loss {B J : Type} (coord_out coord_gt valid : B → J → Fin 3 → ℝ)
    (is_3D : B → ℝ) : B → J → Fin 3 → ℝ :=
  fun b j k =>
    if (k : ℕ) < 2 then |coord_out b j k - coord_gt b j k| * valid b j k
    else (|coord_out b j k - coord_gt b j k| * valid b j k) * is_3D b

/-- `PoseLoss.forward` after the `view(batch_size, -1, 3)` reshape: both poses
are converted by `axis_angle_to_matrix` and
`loss = |pose_out - pose_gt| * pose_valid[:,:,None,None]`. -/
def pose_loss {B J : Type} (pose_out pose_gt : B → J → Fin 3 → ℝ)
    (pose_valid : B → J → ℝ) : B → J → Matrix (Fin 3) (Fin 3) ℝ :=
  fun b j => Matrix.of fun r c =>
    |axis_angle_to_matrix (pose_out b j) r c - axis_angle_to_matrix (pose_gt b j) r c| *
      pose_valid b j

end

/-! ## The MANO two-hand topology table (`common/utils/mano.py`) -/

/-- `self.th_joint_num = 42`. -/
def th_joint_num : ℕ := 42

/-- `self.th_joints_name` of `MANO.__init__`. -/
def th_joints_name : List String :=
  ["R_Wrist", "R_Thumb_1", "R_Thumb_2", "R_Thumb_3", "R_Thumb_4",
   "R_Index_1", "R_Index_2", "R_Index_3", "R_Index_4",
   "R_Middle_1", "R_Middle_2", "R_Middle_3", "R_Middle_4",
   "R_Ring_1", "R_Ring_2", "R_Ring_3", "R_Ring_4",
   "R_Pinky_1", "R_Pinky_2", "R_Pinky_3", "R_Pinky_4",
   "L_Wrist", "L_Thumb_1", "L_Thumb_2", "L_Thumb_3", "L_Thumb_4",
   "L_Index_1", "L_Index_2", "L_Index_3", "L_Index_4",
   "L_Middle_1", "L_Middle_2", "L_Middle_3", "L_Middle_4",
   "L_Ring_1", "L_Ring_2", "L_Ring_3", "L_Ring_4",
   "L_Pinky_1", "L_Pinky_2", "L_Pinky_3", "L_Pinky_4"]

/-- `self.th_flip_pairs = [(i, i+21) for i in range(21)]`. -/
def th_flip_pairs : List (ℕ × ℕ) := (List.range 21).map (fun i => (i, i + 21))

/-- `self.th_joint_type['right'] = np.arange(0, 42 // 2)`. -/
def th_joint_type_right : List ℕ := List.range (th_joint_num / 2)

/-- `self.th_joint_type['left'] = np.arange(42 // 2, 42)`. -/
def th_joint_type_left : List ℕ := List.range' (th_joint_num / 2) (th_joint_num - th_joint_num / 2)

/-! ## Helper lemmas -/

lemma vnorm_zero : vnorm ![0, 0, 0] = 0 := by
  simp [vnorm]

lemma vnorm_x (x : ℝ) (hx : 0 ≤ x) : vnorm ![x, 0, 0] = x := by
  unfold vnorm
  norm_num
  exact Real.sqrt_sq hx

lemma vnorm_z (x : ℝ) (hx : 0 ≤ x) : vnorm ![0, 0, x] = x := by
  unfold vnorm
  norm_num
  exact Real.sqrt_sq hx

lemma vnorm_nonneg (v : Fin 3 → ℝ) : 0 ≤ vnorm v := Real.sqrt_nonneg _

lemma vnorm_sq (v : Fin 3 → ℝ) : vnorm v ^ 2 = v 0 ^ 2 + v 1 ^ 2 + v 2 ^ 2 :=
  Real.sq_sqrt (by positivity)

set_option linter.unnecessarySeqFocus false in
/-- Entrywise closed form of the Rodrigues matrix. -/
lemma rodriguesCore_apply (a : Fin 3 → ℝ) (s c : ℝ) :
    rodriguesCore a s c =
      !![1 - (1-c)*(a 1^2 + a 2^2), -(s*a 2) + (1-c)*(a 0*a 1), s*a 1 + (1-c)*(a 0*a 2);
         s*a 2 + (1-c)*(a 0*a 1), 1 - (1-c)*(a 0^2 + a 2^2), -(s*a 0) + (1-c)*(a 1*a 2);
         -(s*a 1) + (1-c)*(a 0*a 2), s*a 0 + (1-c)*(a 1*a 2), 1 - (1-c)*(a 0^2 + a 1^2)] := by
  unfold rodriguesCore skewK
  ext i j
  fin_cases i <;> fin_cases j <;>
    (rw [Matrix.add_apply, Matrix.add_apply, Matrix.smul_apply, Matrix.smul_apply,
      Matrix.mul_apply, Fin.sum_univ_three] <;>
    simp [Matrix.one_apply, -mul_eq_mul_left_iff]) <;> ring

/-- Trace of the Rodrigues matrix. -/
lemma m2aa_trace_core (a : Fin 3 → ℝ) (s c : ℝ) :
    m2aa_trace (rodriguesCore a s c) = 3 - 2*(1-c)*(a 0^2 + a 1^2 + a 2^2) := by
  rw [rodriguesCore_apply]
  unfold m2aa_trace
  simp
  ring

/-- Skew part of the Rodrigues matrix recovered by `matrix_to_axis_angle`. -/
lemma m2aa_axis_core (a : Fin 3 → ℝ) (s c : ℝ) :
    m2aa_axis_unnorm (rodriguesCore a s c) = ![2*s*a 0, 2*s*a 1, 2*s*a 2] := by
  rw [rodriguesCore_apply]
  unfold m2aa_axis_unnorm
  funext i
  fin_cases i <;> simp <;> ring

/-- Deviation of RᵀR from the identity for the Rodrigues matrix with an axis
of squared norm Q: `RᵀR = I + (1-c)²(1-Q)·K²` entrywise, given `s² = 1-c²`. -/
lemma rodriguesCore_RtR (a : Fin 3 → ℝ) (s c : ℝ) (hs : s^2 = 1 - c^2) (i j : Fin 3) :
    ((rodriguesCore a s c).transpose * rodriguesCore a s c) i j =
      (1 : Matrix (Fin 3) (Fin 3) ℝ) i j +
      ((1-c)^2 * (1 - (a 0^2 + a 1^2 + a 2^2))) * ((skewK a * skewK a) i j) := by
  fin_cases i <;> fin_cases j <;>
    (rw [Matrix.mul_apply, Fin.sum_univ_three]
     unfold rodriguesCore skewK
     simp [Matrix.transpose_apply, Matrix.add_apply, Matrix.smul_apply, Matrix.mul_apply,
       Fin.sum_univ_three, Matrix.one_apply, Matrix.vecHead, Matrix.vecTail,
       -mul_eq_mul_left_iff])
  · linear_combination (a 1^2 + a 2^2) * hs
  · linear_combination (-(a 0 * a 1)) * hs
  · linear_combination (-(a 0 * a 2)) * hs
  · linear_combination (-(a 0 * a 1)) * hs
  · linear_combination (a 0^2 + a 2^2) * hs
  · linear_combination (-(a 1 * a 2)) * hs
  · linear_combination (-(a 0 * a 2)) * hs
  · linear_combination (-(a 1 * a 2)) * hs
  · linear_combination (a 0^2 + a 1^2) * hs

set_option maxHeartbeats 1000000 in
/-- Every entry of K² is bounded by the squared norm of the axis. -/
lemma skewK_sq_entry_bound (a : Fin 3 → ℝ) (i j : Fin 3) :
    |(skewK a * skewK a) i j| ≤ a 0^2 + a 1^2 + a 2^2 := by
  fin_cases i <;> fin_cases j <;>
    (rw [Matrix.mul_apply, Fin.sum_univ_three]
     unfold skewK
     simp [Matrix.vecHead, Matrix.vecTail]
     rw [abs_le]
     constructor <;>
     nlinarith [sq_nonneg (a 0 + a 1), sq_nonneg (a 0 - a 1), sq_nonneg (a 0 + a 2),
      sq_nonneg (a 0 - a 2), sq_nonneg (a 1 + a 2), sq_nonneg (a 1 - a 2),
      sq_nonneg (a 0), sq_nonneg (a 1), sq_nonneg (a 2)])

/-- Closed form of the determinant of the Rodrigues matrix (a polynomial
identity, valid for arbitrary s and c). -/
lemma rodriguesCore_det (a : Fin 3 → ℝ) (s c : ℝ) :
    (rodriguesCore a s c).det =
      (1 - (1-c)*(a 0^2 + a 1^2 + a 2^2))^2 + s^2*(a 0^2 + a 1^2 + a 2^2) := by
  rw [rodriguesCore_apply, Matrix.det_fin_three]
  simp [Matrix.vecHead, Matrix.vecTail]
  ring

/-- The quantitative deviation factor `(1-cosθ)²(1-(θ/(θ+1e-8))²)` stays below
1e-5 for every angle at least 1e-3. -/
lemma rod_dev_bound (θ : ℝ) (hθ : 1e-3 ≤ θ) :
    (1 - Real.cos θ)^2 * (1 - (θ/(θ+1e-8))^2) ≤ 1e-5 := by
  have hθ0 : (0:ℝ) < θ := by linarith
  have hd : (0:ℝ) < θ + 1e-8 := by linarith
  have hQ1 : (θ/(θ+1e-8))^2 ≤ 1 := by
    rw [div_pow, div_le_one (by positivity)]
    nlinarith
  have h1Q0 : 0 ≤ 1 - (θ/(θ+1e-8))^2 := by linarith
  have h1Q : 1 - (θ/(θ+1e-8))^2 ≤ 2e-8/θ := by
    have heq : 1 - (θ/(θ+1e-8))^2 = ((θ+1e-8)^2 - θ^2)/(θ+1e-8)^2 := by
      field_simp
    rw [heq, div_le_div_iff₀ (by positivity) hθ0]
    nlinarith
  have hc0 : 0 ≤ 1 - Real.cos θ := by nlinarith [Real.cos_le_one θ]
  rcases le_or_lt θ 1 with h1 | h1
  · have hb := Real.cos_bound (x := θ) (by rw [abs_of_nonneg hθ0.le]; exact h1)
    have hb2 := (abs_le.mp hb).1
    have habs : |θ| = θ := abs_of_nonneg hθ0.le
    rw [habs] at hb2
    have hθ2 : θ^2 ≤ 1 := by nlinarith
    have hth4 : θ^4 ≤ θ^2 := by
      nlinarith [mul_nonneg (sq_nonneg θ) (sub_nonneg.mpr hθ2)]
    have hc : 1 - Real.cos θ ≤ 0.553 * θ^2 := by nlinarith
    have hsq : (1 - Real.cos θ)^2 ≤ (0.553*θ^2)^2 := by nlinarith
    have hstep : (1 - Real.cos θ)^2 * (1 - (θ/(θ+1e-8))^2) ≤ (0.553*θ^2)^2 * (2e-8/θ) :=
      mul_le_mul hsq h1Q h1Q0 (by positivity)
    have heval : (0.553*θ^2)^2 * (2e-8/θ) = 0.553^2 * 2e-8 * θ^3 := by
      field_simp
      ring
    rw [heval] at hstep
    nlinarith
  · have hcb : (1 - Real.cos θ)^2 ≤ 4 := by
      nlinarith [Real.cos_le_one θ, Real.neg_one_le_cos θ]
    have h1Q' : 1 - (θ/(θ+1e-8))^2 ≤ 2e-8 := by
      calc 1 - (θ/(θ+1e-8))^2 ≤ 2e-8/θ := h1Q
      _ ≤ 2e-8 := by
          rw [div_le_iff₀ hθ0]
          nlinarith
    calc (1 - Real.cos θ)^2 * (1 - (θ/(θ+1e-8))^2) ≤ 4 * 2e-8 :=
      mul_le_mul hcb h1Q' h1Q0 (by norm_num)
    _ ≤ 1e-5 := by norm_num

/-- Antitonicity of arccos. -/
lemma arccos_anti {x y : ℝ} (h : x ≤ y) : Real.arccos y ≤ Real.arccos x := by
  rw [Real.arccos_eq_pi_div_two_sub_arcsin, Real.arccos_eq_pi_div_two_sub_arcsin]
  have := Real.monotone_arcsin h
  linarith

/-- Quartic Taylor bounds for cosine on [0, 1]. -/
lemma cos_taylor (t : ℝ) (h0 : 0 ≤ t) (h1 : t ≤ 1) :
    1 - t^2/2 - t^4*(5/96) ≤ Real.cos t ∧ Real.cos t ≤ 1 - t^2/2 + t^4*(5/96) := by
  have hb := Real.cos_bound (x := t) (by rw [abs_of_nonneg h0]; exact h1)
  rw [abs_of_nonneg h0] at hb
  have hb2 := abs_le.mp hb
  constructor <;> nlinarith [hb2.1, hb2.2]

/-- Sine is at least 0.0098 on the interval [0.0099, π - 0.0099]. -/
lemma sin_lb {u : ℝ} (h1 : 0.0099 ≤ u) (h2 : u ≤ π - 0.0099) : 0.0098 ≤ Real.sin u := by
  have hπ : (3.141592 : ℝ) < π := Real.pi_gt_d6
  have hπ2 : π < 3.141593 := Real.pi_lt_d6
  have hs0 : (0.0098 : ℝ) ≤ Real.sin 0.0099 := by
    have h := Real.sin_gt_sub_cube (by norm_num : (0:ℝ) < 0.0099)
      (by norm_num : (0.0099:ℝ) ≤ 1)
    nlinarith
  rcases le_or_lt u (π/2) with hc | hc
  · have hmono : Real.sin 0.0099 ≤ Real.sin u := by
      apply Real.strictMonoOn_sin.monotoneOn (Set.mem_Icc.mpr ⟨by linarith, by linarith⟩)
        (Set.mem_Icc.mpr ⟨by linarith, hc⟩) h1
    linarith
  · have hflip : Real.sin (π - u) = Real.sin u := Real.sin_pi_sub u
    have hmono : Real.sin 0.0099 ≤ Real.sin (π - u) := by
      apply Real.strictMonoOn_sin.monotoneOn (Set.mem_Icc.mpr ⟨by linarith, by linarith⟩)
        (Set.mem_Icc.mpr ⟨by linarith, by linarith⟩) (by linarith)
    rw [hflip] at hmono
    linarith

/-- The squared ratio θ/(θ+1e-8) is within 2e-8/θ of 1. -/
lemma one_sub_lam_sq (θ : ℝ) (hθ0 : 0 < θ) : 1 - (θ/(θ+1e-8))^2 ≤ 2e-8/θ := by
  have heq : 1 - (θ/(θ+1e-8))^2 = ((θ+1e-8)^2 - θ^2)/(θ+1e-8)^2 := by
    field_simp
  rw [heq, div_le_div_iff₀ (by positivity) hθ0]
  nlinarith

/-- Window bounds for the ratio θ/(θ+1e-8) when θ > 0.01. -/
lemma lam_window (θ : ℝ) (h : 0.01 < θ) :
    0.999 ≤ θ/(θ+1e-8) ∧ θ/(θ+1e-8) ≤ 1 ∧
    0.998 ≤ (θ/(θ+1e-8))^2 ∧ (θ/(θ+1e-8))^2 ≤ 1 := by
  have hd : (0:ℝ) < θ + 1e-8 := by linarith
  have h1 : θ/(θ+1e-8) ≤ 1 := by
    rw [div_le_one hd]
    linarith
  have h0 : 0.999 ≤ θ/(θ+1e-8) := by
    rw [le_div_iff₀ hd]
    linarith
  refine ⟨h0, h1, by nlinarith, by nlinarith⟩

/-- Window bounds for the clamped acos argument 1-(1-c)Q. -/
lemma arg_window (c Q : ℝ) (hcub : c ≤ Real.cos 0.01) (hQ98 : 0.998 ≤ Q) (hQ1 : Q ≤ 1)
    (hcm1 : -1 ≤ c) :
    1 - (1-c)*Q ≤ Real.cos 1e-3 ∧ c ≤ 1 - (1-c)*Q ∧ -1 ≤ 1 - (1-c)*Q ∧ 1 - (1-c)*Q ≤ 1 := by
  have hct3 := cos_taylor 1e-3 (by norm_num) (by norm_num)
  have hct01 := cos_taylor 0.01 (by norm_num) (by norm_num)
  have h1c0 : 0 ≤ 1 - c := by linarith
  refine ⟨?_, ?_, ?_, ?_⟩
  · have hpr : (4.9e-5:ℝ) * 0.998 ≤ (1-c)*Q :=
      mul_le_mul (by linarith [hct01.2]) hQ98 (by norm_num) h1c0
    nlinarith [hct3.1]
  · nlinarith [mul_nonneg h1c0 (by linarith : (0:ℝ) ≤ 1 - Q)]
  · nlinarith [mul_le_mul (by linarith : 1-c ≤ 2) hQ1 (by linarith : (0:ℝ) ≤ Q)
      (by norm_num : (0:ℝ) ≤ 2)]
  · nlinarith [mul_nonneg h1c0 (by linarith : (0:ℝ) ≤ Q)]

/-- The acos-argument perturbation (1-cosθ)(1-Q) is at most 4e-8. -/
lemma delta_bound (θ Q : ℝ) (hθ : 0.01 < θ) (hQle : 1 - Q ≤ 2e-8/θ) (hQ0 : 0 ≤ 1 - Q) :
    (1 - Real.cos θ)*(1 - Q) ≤ 4e-8 := by
  have hθ0 : (0:ℝ) < θ := by linarith
  rcases le_or_lt θ 1 with hle | hgt
  · have hct := cos_taylor θ hθ0.le hle
    have hθ2 : θ^2 ≤ 1 := by nlinarith
    have hth4 : θ^4 ≤ θ^2 := by
      nlinarith [mul_nonneg (sq_nonneg θ) (by linarith : (0:ℝ) ≤ 1 - θ^2)]
    have h1cb : 1 - Real.cos θ ≤ 0.553*θ^2 := by nlinarith [hct.1]
    have hstep : (1 - Real.cos θ)*(1 - Q) ≤ (0.553*θ^2)*(2e-8/θ) :=
      mul_le_mul h1cb hQle hQ0 (by positivity)
    have heval : (0.553*θ^2)*((2e-8:ℝ)/θ) = 0.553*2e-8*θ := by
      field_simp
      ring
    rw [heval] at hstep
    nlinarith
  · have hstep : (1 - Real.cos θ)*(1 - Q) ≤ 2*(2e-8/θ) :=
      mul_le_mul (by nlinarith [Real.neg_one_le_cos θ]) hQle hQ0 (by norm_num)
    have hfin : 2*((2e-8:ℝ)/θ) ≤ 4e-8 := by
      rw [show 2*((2e-8:ℝ)/θ) = 4e-8/θ by ring, div_le_iff₀ hθ0]
      nlinarith
    linarith

/-- Shifting the angle down by 9e-5 increases the cosine by more than 4e-8. -/
lemma cos_shift_lb {θ e : ℝ} (hlo : 0.01 < θ) (hhi : θ < π - 0.01)
    (he4 : e ≤ 4e-8) :
    Real.cos θ + e ≤ Real.cos (θ - 9e-5) := by
  have hπ : (3.141592 : ℝ) < π := Real.pi_gt_d6
  have hcc := Real.cos_sub_cos (θ - 9e-5) θ
  have e2 : (θ - 9e-5 + θ)/2 = θ - 4.5e-5 := by ring
  have e3 : (θ - 9e-5 - θ)/2 = -(4.5e-5:ℝ) := by ring
  rw [e2, e3, Real.sin_neg] at hcc
  have hs1 : (0.0098:ℝ) ≤ Real.sin (θ - 4.5e-5) := sin_lb (by linarith) (by linarith)
  have hs2 : (4.4e-5:ℝ) ≤ Real.sin 4.5e-5 := by
    have h := Real.sin_gt_sub_cube (by norm_num : (0:ℝ) < 4.5e-5)
      (by norm_num : (4.5e-5:ℝ) ≤ 1)
    nlinarith
  have hprod : (0.0098:ℝ)*4.4e-5 ≤ Real.sin (θ-4.5e-5) * Real.sin 4.5e-5 :=
    mul_le_mul hs1 hs2 (by norm_num) (by linarith)
  nlinarith [hcc, hprod]

/-- The recovered angle times the axis-normalization ratio stays within 1e-4
of the original angle. -/
lemma roundtrip_scalar {θ A W : ℝ}
    (hA0 : 0 ≤ A) (hAπ : A ≤ π) (hAub : A ≤ θ) (hAlb : θ - 9e-5 ≤ A)
    (hW : 0.0195 ≤ W) :
    |A * (W/(W+1e-8)) - θ| ≤ 1e-4 := by
  have hπ2 : π < 3.141593 := Real.pi_lt_d6
  have hN : (0:ℝ) < W + 1e-8 := by linarith
  have hu1 : W/(W+1e-8) ≤ 1 := by
    rw [div_le_one hN]
    linarith
  have h1u : 1 - W/(W+1e-8) ≤ 5.2e-7 := by
    have e6 : 1 - W/(W+1e-8) = 1e-8/(W+1e-8) := by field_simp
    rw [e6, div_le_iff₀ hN]
    linarith
  have hup : A * (W/(W+1e-8)) ≤ θ := by
    calc A * (W/(W+1e-8)) ≤ A * 1 := mul_le_mul_of_nonneg_left hu1 hA0
    _ = A := mul_one A
    _ ≤ θ := hAub
  have hp : A * (1 - W/(W+1e-8)) ≤ π * 5.2e-7 :=
    mul_le_mul hAπ h1u (by linarith) (by positivity)
  have hid : θ - A * (W/(W+1e-8)) = (θ - A) + A * (1 - W/(W+1e-8)) := by ring
  rw [abs_le]
  constructor
  · linarith [hp, hid, hAlb, hπ2]
  · linarith [hup]

/-- A product of two bounded-below nonnegative factors. -/
lemma prod_lb {s t : ℝ} (hs : 0.0098 ≤ s) (ht : 0.999 ≤ t) : (0.0195:ℝ) ≤ 2*s*t := by
  nlinarith

/-- Components are bounded by the norm. -/
lemma comp_le_of_sq (x T : ℝ) (hT : 0 < T) (h2 : x^2 ≤ T^2) : |x| ≤ T := by
  nlinarith [sq_abs x, abs_nonneg x]

/-- Squares are bounded by their sum. -/
lemma sq_le_of_sum {x y z T : ℝ} (h : x^2 + y^2 + z^2 = T) :
    x^2 ≤ T ∧ y^2 ≤ T ∧ z^2 ≤ T := by
  refine ⟨?_, ?_, ?_⟩ <;> nlinarith [sq_nonneg x, sq_nonneg y, sq_nonneg z]

set_option maxHeartbeats 1600000 in
/-- C1: round trip: for every axis-angle vector whose magnitude lies in
(0.01, π-0.01), `matrix_to_axis_angle (axis_angle_to_matrix v)` differs from v
by at most 1e-4 in every component. -/
theorem roundtrip_axis_angle (v : Fin 3 → ℝ)
    (hlo : 0.01 < vnorm v) (hhi : vnorm v < π - 0.01) :
    ∀ i, |matrix_to_axis_angle (axis_angle_to_matrix v) i - v i| ≤ 1e-4 := by
  have hπ : (3.141592 : ℝ) < π := Real.pi_gt_d6
  set θ := vnorm v with hθdef
  have hθpos : (0:ℝ) < θ := by linarith
  have hθπ : θ < π := by linarith
  have hd : (0:ℝ) < θ + 1e-8 := by linarith
  set a : Fin 3 → ℝ := fun i => v i / (θ + 1e-8) with hadef
  set s := Real.sin θ with hsdef
  set c := Real.cos θ with hcdef
  have hsum : v 0 ^ 2 + v 1 ^ 2 + v 2 ^ 2 = θ ^ 2 := (vnorm_sq v).symm
  have hQ : a 0^2 + a 1^2 + a 2^2 = (θ/(θ+1e-8))^2 := by
    rw [hadef]
    field_simp
    linear_combination hsum
  have hlam := lam_window θ hlo
  have hQ98 : 0.998 ≤ a 0^2 + a 1^2 + a 2^2 := by
    rw [hQ]
    exact hlam.2.2.1
  have hQ1 : a 0^2 + a 1^2 + a 2^2 ≤ 1 := by
    rw [hQ]
    exact hlam.2.2.2
  have hcneg : -1 ≤ c := Real.neg_one_le_cos θ
  have hspos : 0 < s := Real.sin_pos_of_pos_of_lt_pi hθpos hθπ
  have hslb : (0.0098:ℝ) ≤ s := sin_lb (by linarith) (by linarith)
  have hcmono : c ≤ Real.cos 0.01 := by
    rw [hcdef]
    exact Real.cos_le_cos_of_nonneg_of_le_pi (by norm_num) (le_of_lt hθπ) (by linarith)
  have harg := arg_window c (a 0^2 + a 1^2 + a 2^2) hcmono hQ98 hQ1 hcneg
  have hns : ¬ vnorm v < 1e-3 := not_lt.mpr (by rw [← hθdef]; linarith)
  have hRR : axis_angle_to_matrix v = rodriguesCore a s c := by
    rw [axis_angle_to_matrix, if_neg hns, rodriguesR, ← hθdef, ← hadef, ← hsdef, ← hcdef]
  have htr : m2aa_trace (rodriguesCore a s c) = 3 - 2*(1-c)*(a 0^2 + a 1^2 + a 2^2) :=
    m2aa_trace_core a s c
  have hcl : m2aa_clamped (rodriguesCore a s c) = 1 - (1-c)*(a 0^2 + a 1^2 + a 2^2) := by
    unfold m2aa_clamped clamp
    rw [htr]
    have e1 : (3 - 2*(1-c)*(a 0^2 + a 1^2 + a 2^2) - 1)/2
        = 1 - (1-c)*(a 0^2 + a 1^2 + a 2^2) := by ring
    rw [e1, max_eq_right harg.2.2.1, min_eq_right harg.2.2.2]
  have hang : m2aa_angle (rodriguesCore a s c)
      = Real.arccos (1 - (1-c)*(a 0^2 + a 1^2 + a 2^2)) := by
    unfold m2aa_angle
    rw [hcl]
  have hA_ub : m2aa_angle (rodriguesCore a s c) ≤ θ := by
    rw [hang]
    calc Real.arccos (1 - (1-c)*(a 0^2 + a 1^2 + a 2^2)) ≤ Real.arccos c :=
      arccos_anti harg.2.1
    _ = θ := by rw [hcdef]; exact Real.arccos_cos (le_of_lt hθpos) (le_of_lt hθπ)
  have hA_mask : (1e-3:ℝ) ≤ m2aa_angle (rodriguesCore a s c) := by
    rw [hang]
    calc (1e-3:ℝ) = Real.arccos (Real.cos 1e-3) :=
      (Real.arccos_cos (by norm_num) (by linarith)).symm
    _ ≤ Real.arccos (1 - (1-c)*(a 0^2 + a 1^2 + a 2^2)) := arccos_anti harg.1
  have hA0 : 0 ≤ m2aa_angle (rodriguesCore a s c) := Real.arccos_nonneg _
  have hAπ : m2aa_angle (rodriguesCore a s c) ≤ π := Real.arccos_le_pi _
  have hQ0' : 0 ≤ 1 - (a 0^2 + a 1^2 + a 2^2) := by linarith
  have hδ4 : (1-c)*(1 - (a 0^2 + a 1^2 + a 2^2)) ≤ 4e-8 := by
    apply delta_bound θ _ hlo _ hQ0'
    rw [hQ]
    exact one_sub_lam_sq θ hθpos
  have hA_lb : θ - 9e-5 ≤ m2aa_angle (rodriguesCore a s c) := by
    rw [hang]
    have hshift : c + (1-c)*(1 - (a 0^2 + a 1^2 + a 2^2)) ≤ Real.cos (θ - 9e-5) := by
      rw [hcdef]
      exact cos_shift_lb hlo hhi hδ4
    have hxid : 1 - (1-c)*(a 0^2 + a 1^2 + a 2^2)
        = c + (1-c)*(1 - (a 0^2 + a 1^2 + a 2^2)) := by ring
    have hxle2 : 1 - (1-c)*(a 0^2 + a 1^2 + a 2^2) ≤ Real.cos (θ - 9e-5) := by
      rw [hxid]
      exact hshift
    calc θ - 9e-5 = Real.arccos (Real.cos (θ - 9e-5)) :=
      (Real.arccos_cos (by linarith) (by linarith)).symm
    _ ≤ Real.arccos (1 - (1-c)*(a 0^2 + a 1^2 + a 2^2)) := arccos_anti hxle2
  have haxis : m2aa_axis_unnorm (rodriguesCore a s c) = ![2*s*a 0, 2*s*a 1, 2*s*a 2] :=
    m2aa_axis_core a s c
  have hW0 : 0 ≤ 2*s*(θ/(θ+1e-8)) :=
    mul_nonneg (mul_nonneg (by norm_num) hspos.le) (by positivity)
  have hwn : vnorm ![2*s*a 0, 2*s*a 1, 2*s*a 2] = 2*s*(θ/(θ+1e-8)) := by
    unfold vnorm
    simp only [Matrix.cons_val_zero, Matrix.cons_val_one, Matrix.head_cons,
      Matrix.cons_val_two, Matrix.tail_cons]
    have e5 : (2*s*a 0)^2 + (2*s*a 1)^2 + (2*s*a 2)^2 = (2*s*(θ/(θ+1e-8)))^2 := by
      linear_combination (4*s^2) * hQ
    rw [e5]
    exact Real.sqrt_sq hW0
  have hWlb : (0.0195:ℝ) ≤ 2*s*(θ/(θ+1e-8)) := prod_lb hslb hlam.1
  have hmain : |m2aa_angle (rodriguesCore a s c) *
      (2*s*(θ/(θ+1e-8)) / (2*s*(θ/(θ+1e-8)) + 1e-8)) - θ| ≤ 1e-4 :=
    roundtrip_scalar hA0 hAπ hA_ub hA_lb hWlb
  have hsq3 := sq_le_of_sum hsum
  intro i
  have hnm : ¬ m2aa_angle (rodriguesCore a s c) < 1e-3 := not_lt.mpr hA_mask
  rw [hRR, matrix_to_axis_angle, if_neg hnm]
  simp only [haxis, hwn]
  fin_cases i
  · show |m2aa_angle (rodriguesCore a s c) * (2*s*a 0/(2*s*(θ/(θ+1e-8)) + 1e-8)) - v 0| ≤ 1e-4
    have hident : m2aa_angle (rodriguesCore a s c) * (2*s*a 0/(2*s*(θ/(θ+1e-8)) + 1e-8)) - v 0
        = (v 0/θ) * (m2aa_angle (rodriguesCore a s c) *
          (2*s*(θ/(θ+1e-8)) / (2*s*(θ/(θ+1e-8)) + 1e-8)) - θ) := by
      rw [hadef]
      field_simp
      ring
    rw [hident, abs_mul]
    have h1 : |v 0/θ| ≤ 1 := by
      rw [abs_div, abs_of_pos hθpos, div_le_one hθpos]
      exact comp_le_of_sq (v 0) θ hθpos hsq3.1
    calc |v 0/θ| * |m2aa_angle (rodriguesCore a s c) *
        (2*s*(θ/(θ+1e-8)) / (2*s*(θ/(θ+1e-8)) + 1e-8)) - θ|
        ≤ 1 * 1e-4 := mul_le_mul h1 hmain (abs_nonneg _) (by norm_num)
    _ = 1e-4 := by norm_num
  · show |m2aa_angle (rodriguesCore a s c) * (2*s*a 1/(2*s*(θ/(θ+1e-8)) + 1e-8)) - v 1| ≤ 1e-4
    have hident : m2aa_angle (rodriguesCore a s c) * (2*s*a 1/(2*s*(θ/(θ+1e-8)) + 1e-8)) - v 1
        = (v 1/θ) * (m2aa_angle (rodriguesCore a s c) *
          (2*s*(θ/(θ+1e-8)) / (2*s*(θ/(θ+1e-8)) + 1e-8)) - θ) := by
      rw [hadef]
      field_simp
      ring
    rw [hident, abs_mul]
    have h1 : |v 1/θ| ≤ 1 := by
      rw [abs_div, abs_of_pos hθpos, div_le_one hθpos]
      exact comp_le_of_sq (v 1) θ hθpos hsq3.2.1
    calc |v 1/θ| * |m2aa_angle (rodriguesCore a s c) *
        (2*s*(θ/(θ+1e-8)) / (2*s*(θ/(θ+1e-8)) + 1e-8)) - θ|
        ≤ 1 * 1e-4 := mul_le_mul h1 hmain (abs_nonneg _) (by norm_num)
    _ = 1e-4 := by norm_num
  · show |m2aa_angle (rodriguesCore a s c) * (2*s*a 2/(2*s*(θ/(θ+1e-8)) + 1e-8)) - v 2| ≤ 1e-4
    have hident : m2aa_angle (rodriguesCore a s c) * (2*s*a 2/(2*s*(θ/(θ+1e-8)) + 1e-8)) - v 2
        = (v 2/θ) * (m2aa_angle (rodriguesCore a s c) *
          (2*s*(θ/(θ+1e-8)) / (2*s*(θ/(θ+1e-8)) + 1e-8)) - θ) := by
      rw [hadef]
      field_simp
      ring
    rw [hident, abs_mul]
    have h1 : |v 2/θ| ≤ 1 := by
      rw [abs_div, abs_of_pos hθpos, div_le_one hθpos]
      exact comp_le_of_sq (v 2) θ hθpos hsq3.2.2
    calc |v 2/θ| * |m2aa_angle (rodriguesCore a s c) *
        (2*s*(θ/(θ+1e-8)) / (2*s*(θ/(θ+1e-8)) + 1e-8)) - θ|
        ≤ 1 * 1e-4 := mul_le_mul h1 hmain (abs_nonneg _) (by norm_num)
    _ = 1e-4 := by norm_num

/-- Witness for C1 at the concrete vector [1, 0, 0] (angle 1). -/
theorem roundtrip_axis_angle_witness :
    0.01 < vnorm ![1, 0, 0] ∧
    |matrix_to_axis_angle (axis_angle_to_matrix ![1, 0, 0]) 0 -
      (![1, 0, 0] : Fin 3 → ℝ) 0| ≤ 1e-4 := by
  have h1 : vnorm ![(1:ℝ), 0, 0] = 1 := vnorm_x 1 (by norm_num)
  have hπ : (3.141592 : ℝ) < π := Real.pi_gt_d6
  constructor
  · rw [h1]
    norm_num
  · exact roundtrip_axis_angle ![1, 0, 0] (by rw [h1]; norm_num) (by rw [h1]; linarith) 0

set_option maxHeartbeats 1600000 in
/-- C2: for every input axis-angle vector, the matrix returned by
`axis_angle_to_matrix` satisfies RᵀR = I and det R = 1 within 1e-5 entrywise,
including the near-zero-angle branch. -/
theorem axis_angle_matrix_orthonormal (v : Fin 3 → ℝ) :
    (∀ i j, |((axis_angle_to_matrix v).transpose * axis_angle_to_matrix v) i j -
      (1 : Matrix (Fin 3) (Fin 3) ℝ) i j| ≤ 1e-5) ∧
    |(axis_angle_to_matrix v).det - 1| ≤ 1e-5 := by
  by_cases h : vnorm v < 1e-3
  · rw [axis_angle_to_matrix, if_pos h]
    constructor
    · intro i j
      simp
      norm_num
    · simp
      norm_num
  · rw [axis_angle_to_matrix, if_neg h]
    push_neg at h
    set θ := vnorm v with hθdef
    set a : Fin 3 → ℝ := fun i => v i / (θ + 1e-8) with hadef
    have hθnn : (0:ℝ) ≤ θ := vnorm_nonneg v
    have hd : (0:ℝ) < θ + 1e-8 := by linarith
    have hsum : v 0 ^ 2 + v 1 ^ 2 + v 2 ^ 2 = θ ^ 2 := (vnorm_sq v).symm
    have hQ : a 0^2 + a 1^2 + a 2^2 = (θ/(θ+1e-8))^2 := by
      rw [hadef]
      field_simp
      linear_combination hsum
    have hQ0 : 0 ≤ a 0^2 + a 1^2 + a 2^2 := by positivity
    have hQ1 : a 0^2 + a 1^2 + a 2^2 ≤ 1 := by
      rw [hQ, div_pow, div_le_one (by positivity)]
      nlinarith
    have hE : (1 - Real.cos θ)^2 * (1 - (a 0^2 + a 1^2 + a 2^2)) ≤ 1e-5 := by
      rw [hQ]
      exact rod_dev_bound θ h
    have hE0 : 0 ≤ (1 - Real.cos θ)^2 * (1 - (a 0^2 + a 1^2 + a 2^2)) := by
      have h1 := sq_nonneg (1 - Real.cos θ)
      nlinarith
    have hs : (Real.sin θ)^2 = 1 - (Real.cos θ)^2 := by
      nlinarith [Real.sin_sq_add_cos_sq θ]
    have hRR : rodriguesR v = rodriguesCore a (Real.sin θ) (Real.cos θ) := by
      rw [rodriguesR, ← hθdef, ← hadef]
    rw [hRR]
    constructor
    · intro i j
      rw [rodriguesCore_RtR a _ _ hs i j, add_sub_cancel_left, abs_mul,
        abs_of_nonneg hE0]
      have hk := skewK_sq_entry_bound a i j
      have hstep : (1 - Real.cos θ)^2 * (1 - (a 0^2 + a 1^2 + a 2^2)) * |(skewK a * skewK a) i j| ≤
          (1 - Real.cos θ)^2 * (1 - (a 0^2 + a 1^2 + a 2^2)) * (a 0^2 + a 1^2 + a 2^2) :=
        mul_le_mul_of_nonneg_left hk hE0
      nlinarith [hE, hstep, mul_le_mul_of_nonneg_left hQ1 hE0]
    · rw [rodriguesCore_det]
      have hrw : (1 - (1-Real.cos θ)*(a 0^2 + a 1^2 + a 2^2))^2 +
          (Real.sin θ)^2*(a 0^2 + a 1^2 + a 2^2) - 1 =
          -((a 0^2 + a 1^2 + a 2^2) *
            ((1-Real.cos θ)^2 * (1 - (a 0^2 + a 1^2 + a 2^2)))) := by
        linear_combination (a 0^2 + a 1^2 + a 2^2) * hs
      rw [hrw, abs_neg, abs_of_nonneg (by positivity)]
      nlinarith [hE, hE0, mul_le_mul_of_nonneg_right hQ1 hE0]

/-- C6: both conversions are guarded against numerical domain violations: the
acos argument of `matrix_to_axis_angle` is clamped into [-1, 1] for every
input matrix, and the axis-normalization denominators of both conversions are
strictly positive, so no division by zero occurs. -/
theorem conversion_guards_total :
    (∀ M : Matrix (Fin 3) (Fin 3) ℝ, -1 ≤ m2aa_clamped M ∧ m2aa_clamped M ≤ 1) ∧
    (∀ v : Fin 3 → ℝ, 0 < vnorm v + 1e-8) ∧
    (∀ M : Matrix (Fin 3) (Fin 3) ℝ, 0 < vnorm (m2aa_axis_unnorm M) + 1e-8) := by
  refine ⟨fun M => ⟨?_, ?_⟩, fun v => ?_, fun M => ?_⟩
  · exact le_min (by norm_num) (le_max_left _ _)
  · exact min_le_left _ _
  · have h := vnorm_nonneg v
    nlinarith
  · have h := vnorm_nonneg (m2aa_axis_unnorm M)
    nlinarith

/-- C9: for every input matrix the recovered angle lies in [0, π] and the
axis-angle vector returned by `matrix_to_axis_angle` has Euclidean norm at
most π. -/
theorem m2aa_output_norm_le_pi (M : Matrix (Fin 3) (Fin 3) ℝ) :
    (0 ≤ m2aa_angle M ∧ m2aa_angle M ≤ π) ∧ vnorm (matrix_to_axis_angle M) ≤ π := by
  have h0 : 0 ≤ m2aa_angle M := Real.arccos_nonneg _
  have h1 : m2aa_angle M ≤ π := Real.arccos_le_pi _
  refine ⟨⟨h0, h1⟩, ?_⟩
  unfold matrix_to_axis_angle
  split
  · have : vnorm (fun _ : Fin 3 => (0 : ℝ)) = 0 := by
      unfold vnorm
      norm_num
    rw [this]
    exact Real.pi_pos.le
  · set A := m2aa_angle M with hA
    set w := m2aa_axis_unnorm M with hw
    set n := vnorm w with hn
    have hnn : 0 ≤ n := vnorm_nonneg w
    have hden : (0 : ℝ) < n + 1e-8 := by nlinarith
    have hsq : w 0 ^ 2 + w 1 ^ 2 + w 2 ^ 2 = n ^ 2 := (vnorm_sq w).symm
    have hexp : (A * (w 0 / (n + 1e-8))) ^ 2 + (A * (w 1 / (n + 1e-8))) ^ 2 +
        (A * (w 2 / (n + 1e-8))) ^ 2 = (A * n / (n + 1e-8)) ^ 2 := by
      field_simp
      linear_combination (A ^ 2) * hsq
    have hval : vnorm (fun i => A * (w i / (n + 1e-8))) = A * n / (n + 1e-8) := by
      unfold vnorm
      rw [show (fun i => A * (w i / (n + 1e-8))) 0 = A * (w 0 / (n + 1e-8)) from rfl,
        show (fun i => A * (w i / (n + 1e-8))) 1 = A * (w 1 / (n + 1e-8)) from rfl,
        show (fun i => A * (w i / (n + 1e-8))) 2 = A * (w 2 / (n + 1e-8)) from rfl,
        hexp]
      exact Real.sqrt_sq (by positivity)
    rw [hval]
    have hfrac : n / (n + 1e-8) ≤ 1 := by
      rw [div_le_one hden]
      nlinarith
    calc A * n / (n + 1e-8) = A * (n / (n + 1e-8)) := by ring
    _ ≤ A * 1 := mul_le_mul_of_nonneg_left hfrac h0
    _ = A := mul_one A
    _ ≤ π := h1

/-- C8: `axis_angle_to_matrix` applied to the single vector [0, 0, π/2] gives
the 90° rotation about the z axis, `[[0,-1,0],[1,0,0],[0,0,1]]`, within 1e-5,
pinning down the sign convention of the skew matrix K. -/
theorem axis_angle_quarter_turn_z (i j : Fin 3) :
    |axis_angle_to_matrix ![0, 0, π / 2] i j -
      !![(0 : ℝ), -1, 0; 1, 0, 0; 0, 0, 1] i j| ≤ 1e-5 := by
  have hpi : (3.14 : ℝ) < π := Real.pi_gt_d2
  have hpi2 : π < 3.15 := Real.pi_lt_d2
  have hθ : vnorm ![0, 0, π / 2] = π / 2 := vnorm_z _ (by positivity)
  have hden : (0 : ℝ) < π / 2 + 1e-8 := by linarith
  set L : ℝ := (π / 2) / (π / 2 + 1e-8) with hLdef
  have hL0 : 0 ≤ L := by positivity
  have hL1 : L ≤ 1 := by
    rw [hLdef, div_le_one hden]
    linarith
  have hL8 : 1 - L ≤ 1e-8 := by
    have hrw : 1 - (π / 2) / (π / 2 + 1e-8) = 1e-8 / (π / 2 + 1e-8) := by
      field_simp
    rw [hLdef, hrw, div_le_iff₀ hden]
    nlinarith
  have hsq1 : L ^ 2 ≤ 1 := by
    nlinarith [mul_nonneg hL0 hL0]
  have hsq2 : 1 - 2e-8 ≤ L ^ 2 := by
    nlinarith [sq_nonneg (1 - L)]
  have hmask : ¬ vnorm ![0, 0, π / 2] < 1e-3 := by
    rw [hθ]
    push_neg
    linarith
  have ha : (fun k => ![(0 : ℝ), 0, π / 2] k / (vnorm ![0, 0, π / 2] + 1e-8)) = ![0, 0, L] := by
    funext k
    rw [hθ]
    fin_cases k <;> simp [hLdef]
  have hR : axis_angle_to_matrix ![0, 0, π / 2] =
      !![1 - L ^ 2, -L, 0; L, 1 - L ^ 2, 0; 0, 0, 1] := by
    rw [axis_angle_to_matrix, if_neg hmask]
    unfold rodriguesR
    rw [ha, hθ, Real.sin_pi_div_two, Real.cos_pi_div_two, rodriguesCore_apply]
    ext r s
    fin_cases r <;> fin_cases s <;> simp
  rw [hR]
  fin_cases i <;> fin_cases j <;>
    simp [Matrix.cons_val_zero, Matrix.cons_val_one, Matrix.head_cons, Matrix.vecHead,
      Matrix.vecTail] <;>
    first
    | (rw [abs_le] <;> constructor <;> linarith)
    | norm_num

/-! ## Claims about the losses -/

/-- C3: the small-angle override of `axis_angle_to_matrix` is an element-wise
selection: a batch entry whose angle is below `1e-3` maps to the identity
matrix, an entry with angle at least `1e-3` maps to its Rodrigues matrix
unaffected by the override, and the zero vector maps to the identity. -/
theorem axis_angle_small_angle_override {B : Type} (vs : B → Fin 3 → ℝ) :
    (∀ b, vnorm (vs b) < 1e-3 → axis_angle_to_matrix_batch vs b = 1) ∧
    (∀ b, ¬ vnorm (vs b) < 1e-3 → axis_angle_to_matrix_batch vs b = rodriguesR (vs b)) ∧
    axis_angle_to_matrix ![0, 0, 0] = 1 := by
  refine ⟨fun b h => ?_, fun b h => ?_, ?_⟩
  · simp [axis_angle_to_matrix_batch, axis_angle_to_matrix, h]
  · simp [axis_angle_to_matrix_batch, axis_angle_to_matrix, h]
  · have h0 : vnorm ![0, 0, 0] < 1e-3 := by rw [vnorm_zero]; norm_num
    simp [axis_angle_to_matrix, h0]

/-- Witness for C3 at concrete inputs: angle 0.0005 (below the threshold) gives
the identity, angle 1 (above the threshold) gives the Rodrigues matrix. -/
theorem axis_angle_small_angle_override_witness :
    axis_angle_to_matrix_batch (fun _ : Fin 1 => ![0.0005, 0, 0]) 0 = 1 ∧
    axis_angle_to_matrix_batch (fun _ : Fin 1 => ![1, 0, 0]) 0 = rodriguesR ![1, 0, 0] := by
  constructor
  · refine (axis_angle_small_angle_override _).1 0 ?_
    rw [vnorm_x 0.0005 (by norm_num)]; norm_num
  · refine (axis_angle_small_angle_override _).2.1 0 ?_
    rw [vnorm_x 1 (by norm_num)]; norm_num

/-- C4: in `CoordLoss`, a batch item with `is_3D = 0` has z-channel loss
exactly 0 whatever `valid` and the coordinates are, while the x and y channels
are `|coord_out - coord_gt| * valid`, ungated by `is_3D`. -/
theorem coord_loss_gating {B J : Type} (co cg valid : B → J → Fin 3 → ℝ) (is3D : B → ℝ) :
    (∀ b j, is3D b = 0 → coord_loss co cg valid is3D b j 2 = 0) ∧
    (∀ b j, coord_loss co cg valid is3D b j 0 = |co b j 0 - cg b j 0| * valid b j 0 ∧
            coord_loss co cg valid is3D b j 1 = |co b j 1 - cg b j 1| * valid b j 1) := by
  refine ⟨fun b j h => ?_, fun b j => ⟨?_, ?_⟩⟩
  · simp [coord_loss, h]
  · simp [coord_loss]
  · simp [coord_loss]

/-- Witness for C4: batch of size 1 with `is_3D = [0]`, `valid = 1` and
differing coordinates still has z-channel loss 0. -/
theorem coord_loss_gating_witness :
    coord_loss (fun _ _ _ => (5 : ℝ)) (fun _ _ _ => 2) (fun _ _ _ => 1) (fun _ => 0)
      (0 : Fin 1) (0 : Fin 1) 2 = 0 :=
  (coord_loss_gating _ _ _ _).1 0 0 rfl

/-- C5: `PoseLoss` output is non-negative for 0/1 validity masks, and a joint
with mask 0 contributes exactly 0 across its whole 3×3 block regardless of the
pose values. -/
theorem pose_loss_nonneg_masked {B J : Type} (po pg : B → J → Fin 3 → ℝ) (pv : B → J → ℝ)
    (hpv : ∀ b j, pv b j = 0 ∨ pv b j = 1) :
    (∀ b j r c, 0 ≤ pose_loss po pg pv b j r c) ∧
    (∀ b j, pv b j = 0 → ∀ r c, pose_loss po pg pv b j r c = 0) := by
  constructor
  · intro b j r c
    rcases hpv b j with h | h <;> simp [pose_loss, h, abs_nonneg]
  · intro b j h r c
    simp [pose_loss, h]

/-- Witness for C5 at a concrete batch of one joint: a 0/1 mask gives a
non-negative entry, and mask 0 zeroes the block even for differing poses. -/
theorem pose_loss_nonneg_masked_witness :
    0 ≤ pose_loss (fun _ _ _ => (1 : ℝ)) (fun _ _ _ => 0) (fun _ _ => 1)
        (0 : Fin 1) (0 : Fin 1) 0 0 ∧
    pose_loss (fun _ _ _ => (1 : ℝ)) (fun _ _ _ => 0) (fun _ _ => 0)
        (0 : Fin 1) (0 : Fin 1) 0 0 = 0 := by
  constructor
  · exact (pose_loss_nonneg_masked _ _ _ (fun b j => Or.inr rfl)).1 0 0 0 0
  · exact (pose_loss_nonneg_masked _ _ _ (fun b j => Or.inl rfl)).2 0 0 rfl 0 0

/-- C7: identical predicted and ground-truth poses give an all-zero `PoseLoss`
tensor, whatever the validity mask is. -/
theorem pose_loss_equal_poses_zero {B J : Type} (p : B → J → Fin 3 → ℝ) (pv : B → J → ℝ) :
    ∀ b j r c, pose_loss p p pv b j r c = 0 := by
  intro b j r c
  simp [pose_loss]

/-- C10: every flip pair (i, j) of `th_flip_pairs` has j = i + 21; the i-th
joint name is the j-th joint name with the leading "L_" replaced by "R_"; and
the first (respectively second) components of the pairs are exactly the right
(respectively left) index set of `th_joint_type`. -/
theorem th_flip_pairs_spec :
    (∀ p ∈ th_flip_pairs, p.2 = p.1 + 21 ∧
      th_joints_name.getD p.1 "" = "R_" ++ ((th_joints_name.getD p.2 "").drop 2) ∧
      (th_joints_name.getD p.2 "").take 2 = "L_") ∧
    th_flip_pairs.map Prod.fst = th_joint_type_right ∧
    th_flip_pairs.map Prod.snd = th_joint_type_left := by
  decide
